import Mathlib

/-!
Shallow embedding of the bulk-comment aggregation pipeline of
`src/services/analyzer.py` (class `SemanticAnalyzer`).

Modelling conventions:
* Python floats are modelled as exact rationals (`ℚ`); all claims under study
  are exact arithmetic identities, stated here over exact arithmetic.
* Python dicts that preserve insertion order are modelled as association
  lists `List (String × V)`; updating an existing key keeps its position,
  inserting a new key appends at the end, exactly as CPython dicts do.
* The provider (Gemini) is modelled as an oracle `Nat → Except String
  ChunkResult` giving the outcome of the k-th API call: `.error` covers any
  exception raised by `_make_api_request` / `_extract_json_response`,
  `.ok` a successfully parsed JSON chunk result typed per the spec's
  ChunkResult data model (section 3 of the spec).
* `time.sleep`, logging and the progress callback have no effect on the
  returned value and are omitted.
-/

/-- A comment as consumed by `analyze_bulk_comments`: only `c.get('text','')`
is ever read, so the model keeps just the text (a missing key behaves as ""). -/
structure Comment where
  text : String
deriving Repr, DecidableEq

/-- The `overall_sentiment` object of a parsed chunk result
(`sentiment.get(...)` defaults are applied at use sites); an absent
`overall_sentiment` dict is observationally the all-`none` record. -/
structure SentimentRec where
  positive : Option Int := none
  neutral : Option Int := none
  negative : Option Int := none
  average_score : Option ℚ := none
deriving Repr, DecidableEq

/-- One element of a chunk result's `top_entities` list
(`str(...)` coercion of the name already applied). -/
structure ChunkEntity where
  name : String
  count : Option Int := none
  type : Option String := none
deriving Repr, DecidableEq

/-- One element of a chunk result's `key_themes` list; also the stored theme
record in the aggregate (the new-key branch of analyzer.py line 200-202 stores
the incoming record itself, with `sample_comments` coerced to strings). -/
structure ThemeRec where
  theme : String
  frequency : Option Int := none
  sentiment : Option String := none
  sample_comments : List String := []
deriving Repr, DecidableEq

/-- The `emotion_analysis` object of a chunk result; a key absent from the
dict contributes nothing, modelled as `none`. -/
structure EmotionRec where
  joy : Option Int := none
  anger : Option Int := none
  sadness : Option Int := none
  fear : Option Int := none
  surprise : Option Int := none
  trust : Option Int := none
  anticipation : Option Int := none
deriving Repr, DecidableEq

/-- The `engagement_insights` object of a chunk result. -/
structure EngagementRec where
  constructive_feedback : Option Int := none
  criticism : Option Int := none
  suggestions : Option Int := none
  questions : Option Int := none
  praise : Option Int := none
deriving Repr, DecidableEq

/-- A provider chunk result as parsed by `_extract_json_response`, typed per
the spec's ChunkResult data model; any absent key is its zero/empty default. -/
structure ChunkResult where
  overall_sentiment : SentimentRec := {}
  top_entities : List ChunkEntity := []
  key_themes : List ThemeRec := []
  emotion_analysis : EmotionRec := {}
  engagement_insights : EngagementRec := {}
deriving Repr, DecidableEq

/-- The running `overall_sentiment` of `aggregated_results` (analyzer.py
line 130). -/
structure OverallSentiment where
  positive : Int := 0
  neutral : Int := 0
  negative : Int := 0
  average_score : ℚ := 0
deriving Repr, DecidableEq

/-- A stored entity value of `aggregated_results["top_entities"]`
(analyzer.py lines 182-186): all three fields are always present. -/
structure StoredEntity where
  name : String
  count : Int
  type : String
deriving Repr, DecidableEq

/-- Running `emotion_analysis` totals (analyzer.py lines 133-136). -/
structure Emotions where
  joy : Int := 0
  anger : Int := 0
  sadness : Int := 0
  fear : Int := 0
  surprise : Int := 0
  trust : Int := 0
  anticipation : Int := 0
deriving Repr, DecidableEq

/-- Running `engagement_insights` totals (analyzer.py lines 137-140). -/
structure Engagement where
  constructive_feedback : Int := 0
  criticism : Int := 0
  suggestions : Int := 0
  questions : Int := 0
  praise : Int := 0
deriving Repr, DecidableEq

/-- The running `aggregated_results` dict (analyzer.py lines 129-141).
Entity and theme dicts are insertion-ordered association lists. -/
structure Agg where
  overall_sentiment : OverallSentiment := {}
  top_entities : List (String × StoredEntity) := []
  key_themes : List (String × ThemeRec) := []
  emotion_analysis : Emotions := {}
  engagement_insights : Engagement := {}
deriving Repr, DecidableEq

/-- Python `str.strip()` with no argument: drop leading and trailing
whitespace. Defined structurally over the character list so that concrete
instances evaluate inside the kernel. -/
def pyStrip (s : String) : String :=
  ⟨((s.data.dropWhile Char.isWhitespace).reverse.dropWhile Char.isWhitespace).reverse⟩

/-- Python `str.lower()`: lower-case every character. -/
def pyLower (s : String) : String := ⟨s.data.map Char.toLower⟩

/-- Python `s.strip().lower()` used to build entity/theme merge keys
(analyzer.py lines 177, 190). -/
def normKey (s : String) : String := pyLower (pyStrip s)

/-- In-place update of the value at the first occurrence of key `k`,
preserving its position — the behaviour of `d[k]["f"] += ...` on a Python
dict entry. -/
def updateAt (k : String) (f : V → V) : List (String × V) → List (String × V)
  | [] => []
  | (k', v) :: rest => if k' = k then (k', f v) :: rest else (k', v) :: updateAt k f rest

/-- Merge of one `top_entities` element into the running entity dict
(analyzer.py lines 176-186): key by `lower(trim(name))`, skip empty keys,
add `count` (default 1) on an existing key, insert
`{name, count (default 1), type (default "OTHER")}` on a new key. -/
def mergeEntity (st : List (String × StoredEntity)) (e : ChunkEntity) :
    List (String × StoredEntity) :=
  if normKey e.name = "" then st
  else
    match st.lookup (normKey e.name) with
    | some _ => updateAt (normKey e.name)
        (fun old => { old with count := old.count + e.count.getD 1 }) st
    | none => st ++ [(normKey e.name, ⟨e.name, e.count.getD 1, e.type.getD "OTHER"⟩)]

/-- Left fold of `mergeEntity` over a chunk's `top_entities` list. -/
def mergeEntities (st : List (String × StoredEntity)) (es : List ChunkEntity) :
    List (String × StoredEntity) :=
  es.foldl mergeEntity st

/-- Merge of one `key_themes` element (analyzer.py lines 189-202).
Returns `none` when the Python code raises: on an existing key the statement
`aggregated_results["key_themes"][name]["frequency"] += ...` reads the stored
`"frequency"` entry without a default, so a stored record lacking it raises
`KeyError` before any mutation of that entry happens. Otherwise: existing key
adds `frequency` (incoming default 1) and appends exactly the incoming
samples not already present (set membership, case-sensitive); new key stores
the incoming record itself. -/
def mergeTheme (st : List (String × ThemeRec)) (t : ThemeRec) :
    Option (List (String × ThemeRec)) :=
  if normKey t.theme = "" then some st
  else
    match st.lookup (normKey t.theme) with
    | some old =>
      match old.frequency with
      | none => none
      | some f =>
        some (updateAt (normKey t.theme)
          (fun o => { o with
            frequency := some (f + t.frequency.getD 1),
            sample_comments := o.sample_comments ++
              t.sample_comments.filter (fun c => !(old.sample_comments.contains c)) }) st)
    | none => some (st ++ [(normKey t.theme, t)])

/-- Fold of `mergeTheme` over a chunk's `key_themes`; the Bool is `false`
when a `KeyError` stopped the loop, in which case the returned state is the
partially merged one (in-place mutations before the raise are kept). -/
def mergeThemes : List (String × ThemeRec) → List ThemeRec →
    List (String × ThemeRec) × Bool
  | st, [] => (st, true)
  | st, t :: ts =>
    match mergeTheme st t with
    | none => (st, false)
    | some st' => mergeThemes st' ts

/-- Sentiment count accumulation (analyzer.py lines 166-169); the
`average_score` field is untouched during merging. -/
def addSentiment (a : OverallSentiment) (s : SentimentRec) : OverallSentiment :=
  { a with
    positive := a.positive + s.positive.getD 0
    neutral := a.neutral + s.neutral.getD 0
    negative := a.negative + s.negative.getD 0 }

/-- Emotion accumulation (analyzer.py lines 204-207): only known keys are
summed; an absent key adds nothing. -/
def addEmotions (a : Emotions) (r : EmotionRec) : Emotions :=
  { joy := a.joy + r.joy.getD 0
    anger := a.anger + r.anger.getD 0
    sadness := a.sadness + r.sadness.getD 0
    fear := a.fear + r.fear.getD 0
    surprise := a.surprise + r.surprise.getD 0
    trust := a.trust + r.trust.getD 0
    anticipation := a.anticipation + r.anticipation.getD 0 }

/-- Engagement accumulation (analyzer.py lines 209-212). -/
def addEngagement (a : Engagement) (r : EngagementRec) : Engagement :=
  { constructive_feedback := a.constructive_feedback + r.constructive_feedback.getD 0
    criticism := a.criticism + r.criticism.getD 0
    suggestions := a.suggestions + r.suggestions.getD 0
    questions := a.questions + r.questions.getD 0
    praise := a.praise + r.praise.getD 0 }

/-- The prompt label for one comment: `f"Comment {idx+1}: {text}"`
(analyzer.py line 149) where `idx` is the comment's 0-based position
within the chunk. -/
def commentLabel (idx : Nat) (text : String) : String :=
  "Comment " ++ toString (idx + 1) ++ ": " ++ text

/-- The `chunk_texts` list comprehension (analyzer.py lines 148-151):
enumerate the whole chunk, keep comments whose stripped text is non-empty,
and label each with its enumerate index plus one. -/
def chunkTexts (chunk : List Comment) : List String :=
  (chunk.enum.filter (fun p => pyStrip p.2.text != "")).map
    (fun p => commentLabel p.1 (pyStrip p.2.text))

/-- Fuel-driven worker for `chunksOf`; the fuel (initially the list length)
only forces termination and never runs out when the step is positive. -/
def chunksOfGo (n : Nat) : Nat → List α → List (List α)
  | _, [] => []
  | 0, _ :: _ => []
  | fuel + 1, x :: xs => (x :: xs).take n :: chunksOfGo n fuel ((x :: xs).drop n)

/-- The slicing loop `for i in range(0, len(comments), chunk_size):
chunk = comments[i:i+chunk_size]` (analyzer.py lines 146-147); the step of
`range` must be positive (Python raises otherwise), and the source uses the
constant `Config.BULK_CHUNK_SIZE = 10`. -/
def chunksOf (n : Nat) (l : List α) : List (List α) :=
  if n = 0 then [] else chunksOfGo n l.length l

/-- Mutable loop state of `analyze_bulk_comments`: the aggregate dict, the
`total_score_sum` and `processed_comments_count` accumulators (lines
143-144), and the number of API calls attempted so far (the oracle index).
`allMerged` records whether every attempted chunk so far merged without an
exception, and `stats` lists, per fully merged chunk, the pair
(chunk `average_score`, number of non-empty comments sent). -/
structure RunState where
  agg : Agg := {}
  scoreSum : ℚ := 0
  processed : Nat := 0
  calls : Nat := 0
  allMerged : Bool := true
  stats : List (ℚ × Nat) := []
deriving Repr, DecidableEq

/-- Processing of one attempted chunk, given the outcome of its API call
(analyzer.py lines 158-220). An `.error` outcome models any exception raised
by the call or by response extraction: the handler at lines 217-220 adds the
chunk's eligible count to `processed_comments_count` and continues. On `.ok`,
sentiment, score sum and count are merged first (lines 166-173); then
entities; then themes, whose merge can itself raise (see `mergeTheme`), in
which case the handler adds the eligible count a second time and the
emotion/engagement sections of that chunk are never merged. -/
def attemptChunk (st : RunState) (texts : List String)
    (res : Except String ChunkResult) : RunState :=
  match res with
  | .error _ =>
    { st with
      processed := st.processed + texts.length
      calls := st.calls + 1
      allMerged := false }
  | .ok r =>
    if (mergeThemes st.agg.key_themes r.key_themes).2 then
      { agg :=
          { overall_sentiment := addSentiment st.agg.overall_sentiment r.overall_sentiment
            top_entities := mergeEntities st.agg.top_entities r.top_entities
            key_themes := (mergeThemes st.agg.key_themes r.key_themes).1
            emotion_analysis := addEmotions st.agg.emotion_analysis r.emotion_analysis
            engagement_insights := addEngagement st.agg.engagement_insights r.engagement_insights }
        scoreSum := st.scoreSum +
          r.overall_sentiment.average_score.getD 0 * (texts.length : ℚ)
        processed := st.processed + texts.length
        calls := st.calls + 1
        allMerged := st.allMerged
        stats := st.stats ++ [(r.overall_sentiment.average_score.getD 0, texts.length)] }
    else
      { agg :=
          { overall_sentiment := addSentiment st.agg.overall_sentiment r.overall_sentiment
            top_entities := mergeEntities st.agg.top_entities r.top_entities
            key_themes := (mergeThemes st.agg.key_themes r.key_themes).1
            emotion_analysis := st.agg.emotion_analysis
            engagement_insights := st.agg.engagement_insights }
        scoreSum := st.scoreSum +
          r.overall_sentiment.average_score.getD 0 * (texts.length : ℚ)
        processed := st.processed + texts.length + texts.length
        calls := st.calls + 1
        allMerged := false
        stats := st.stats }

/-- One iteration of the chunk loop: a chunk with no eligible comments is
skipped before any API call (`if not chunk_texts: continue`, lines 153-154);
otherwise the next oracle outcome is consumed. -/
def processChunk (oracle : Nat → Except String ChunkResult)
    (st : RunState) (chunk : List Comment) : RunState :=
  if (chunkTexts chunk).isEmpty then st
  else attemptChunk st (chunkTexts chunk) (oracle st.calls)

/-- The run of the whole chunk loop from the empty initial state. -/
def runOf (chunkSize : Nat) (comments : List Comment)
    (oracle : Nat → Except String ChunkResult) : RunState :=
  (chunksOf chunkSize comments).foldl (processChunk oracle) {}

/-- Stable insertion of `x` into a descending-by-key list: `x` goes before
the first element whose key is not larger, so among equal keys earlier
elements stay first. -/
def insertDesc (key : α → Int) (x : α) : List α → List α
  | [] => [x]
  | y :: ys => if key x < key y then y :: insertDesc key x ys else x :: y :: ys

/-- Stable descending sort by an integer key — the observable behaviour of
Python's stable `sorted(..., key=..., reverse=True)` (analyzer.py lines
227-237). -/
def sortDesc (key : α → Int) (l : List α) : List α :=
  l.foldr (insertDesc key) []

/-- The finalized aggregate (analyzer.py lines 222-239): the average is
`total_score_sum / processed_comments_count` when the count is positive,
else the initial 0; entity values are sorted by `count` descending and
truncated to 20; theme values are sorted by `frequency` (default 0)
descending without truncation. -/
structure FinalResult where
  overall_sentiment : OverallSentiment
  top_entities : List StoredEntity
  key_themes : List ThemeRec
  emotion_analysis : Emotions
  engagement_insights : Engagement
deriving Repr, DecidableEq

/-- Sort key `x.get("count", 0)` of the entity sort (line 229). -/
def entityKey (e : StoredEntity) : Int := e.count

/-- Sort key `x.get("frequency", 0)` of the theme sort (line 235). -/
def themeKey (t : ThemeRec) : Int := t.frequency.getD 0

/-- Finalization of a finished run state (analyzer.py lines 222-237). -/
def finalize (st : RunState) : FinalResult :=
  { overall_sentiment :=
      { st.agg.overall_sentiment with
        average_score :=
          if 0 < st.processed then st.scoreSum / (st.processed : ℚ)
          else st.agg.overall_sentiment.average_score }
    top_entities := (sortDesc entityKey (st.agg.top_entities.map Prod.snd)).take 20
    key_themes := sortDesc themeKey (st.agg.key_themes.map Prod.snd)
    emotion_analysis := st.agg.emotion_analysis
    engagement_insights := st.agg.engagement_insights }

/-- Return value of `analyze_bulk_comments`: the literal empty dict `{}`
for an empty input (line 123-124), else the finalized aggregate. -/
inductive BulkResult where
  | emptyDict
  | result (r : FinalResult)
deriving Repr, DecidableEq

/-- `Config.BULK_CHUNK_SIZE` (config.py line 40). -/
def BULK_CHUNK_SIZE : Nat := 10

/-- `analyze_bulk_comments` (analyzer.py lines 121-239), parameterized by the
chunk size and the provider oracle; the second component is the number of
API calls made. -/
def analyzeBulkWith (chunkSize : Nat) (comments : List Comment)
    (oracle : Nat → Except String ChunkResult) : BulkResult × Nat :=
  if comments.isEmpty then (.emptyDict, 0)
  else
    let st := runOf chunkSize comments oracle
    (.result (finalize st), st.calls)

/-- The source's entry point with its configured chunk size. -/
def analyze_bulk_comments (comments : List Comment)
    (oracle : Nat → Except String ChunkResult) : BulkResult × Nat :=
  analyzeBulkWith BULK_CHUNK_SIZE comments oracle

/-- A raised Python exception, as visible to a caller: its class and its
message. -/
structure PyError where
  pyClass : String
  message : String
deriving Repr, DecidableEq

/-- The fixed message raised for HTTP 429 (analyzer.py line 65). -/
def quotaMessage : String :=
  "Gemini free-tier quota exceeded. Please wait ~60 seconds and try again."

/-- The HTTPError handler of `_make_api_request` (analyzer.py lines 63-76):
status 429 raises `ValueError` with the fixed quota message, never reading
the body; any other non-2xx status raises `ValueError` with a prefixed
message whose detail is the provider error envelope's message when present,
else the raw body text. -/
def handleHTTPError (status : Nat) (bodyText : String)
    (envelopeMessage : Option String) : PyError :=
  if status = 429 then ⟨"ValueError", quotaMessage⟩
  else ⟨"ValueError", "Gemini API request failed: " ++ envelopeMessage.getD bodyText⟩

/-! Helper lemmas about the stable descending sort. -/

/-- Inserting with `insertDesc` is a permutation of consing. -/
lemma insertDesc_perm (key : α → Int) (x : α) (l : List α) :
    List.Perm (insertDesc key x l) (x :: l) := by
  induction l with
  | nil => rfl
  | cons y ys ih =>
    by_cases h : key x < key y
    · simpa [insertDesc, h] using ((ih.cons y).trans (List.Perm.swap x y ys))
    · simp [insertDesc, h]

/-- The stable sort is a permutation of its input. -/
lemma sortDesc_perm (key : α → Int) (l : List α) : List.Perm (sortDesc key l) l := by
  induction l with
  | nil => rfl
  | cons x xs ih => exact (insertDesc_perm key x (sortDesc key xs)).trans (ih.cons x)

/-- Inserting into a descending-sorted list keeps it descending-sorted. -/
lemma insertDesc_sorted (key : α → Int) (x : α) (l : List α)
    (h : l.Pairwise (fun a b => key b ≤ key a)) :
    (insertDesc key x l).Pairwise (fun a b => key b ≤ key a) := by
  induction l with
  | nil => simp [insertDesc]
  | cons y ys ih =>
    rw [List.pairwise_cons] at h
    by_cases hxy : key x < key y
    · rw [insertDesc, if_pos hxy, List.pairwise_cons]
      refine ⟨fun z hz => ?_, ih h.2⟩
      rcases List.mem_cons.mp ((insertDesc_perm key x ys).mem_iff.mp hz) with hz' | hz'
      · subst hz'; exact le_of_lt hxy
      · exact h.1 z hz'
    · rw [insertDesc, if_neg hxy, List.pairwise_cons]
      refine ⟨fun z hz => ?_, List.pairwise_cons.mpr h⟩
      rcases List.mem_cons.mp hz with hz' | hz'
      · subst hz'; exact le_of_not_lt hxy
      · exact le_trans (h.1 z hz') (le_of_not_lt hxy)

/-- The stable sort produces a descending-sorted list. -/
lemma sortDesc_sorted (key : α → Int) (l : List α) :
    (sortDesc key l).Pairwise (fun a b => key b ≤ key a) := by
  induction l with
  | nil => simp [sortDesc]
  | cons x xs ih => exact insertDesc_sorted key x (sortDesc key xs) ih

/-- Stability, elementwise: restricted to any single key value, `insertDesc`
behaves exactly like consing, so the original relative order survives. -/
lemma insertDesc_filter_key (key : α → Int) (c : Int) (x : α) (l : List α) :
    (insertDesc key x l).filter (fun a => key a == c) =
      ((x :: l).filter (fun a => key a == c)) := by
  induction l with
  | nil => rfl
  | cons y ys ih =>
    by_cases hxy : key x < key y
    · rw [insertDesc, if_pos hxy]
      by_cases hy : key y = c
      · have hx : ¬ (key x = c) := by omega
        simp only [List.filter_cons, beq_iff_eq, hy, hx] at ih ⊢
        simpa [hx] using ih
      · simp only [List.filter_cons, beq_iff_eq, hy] at ih ⊢
        simpa [hy] using ih
    · rw [insertDesc, if_neg hxy]

/-- Stability of the full sort: the sublist of elements with any fixed key
value is unchanged, i.e. ties keep their input (insertion) order. -/
lemma sortDesc_filter_key (key : α → Int) (c : Int) (l : List α) :
    (sortDesc key l).filter (fun a => key a == c) = l.filter (fun a => key a == c) := by
  induction l with
  | nil => rfl
  | cons x xs ih =>
    have h := insertDesc_filter_key key c x (sortDesc key xs)
    rw [show sortDesc key (x :: xs) = insertDesc key x (sortDesc key xs) from rfl, h,
      List.filter_cons, List.filter_cons, ih]

/-! Helper lemmas about ordered association lists. -/

/-- Looking up the updated key gives the updated value of the first
occurrence. -/
lemma lookup_updateAt_self (k : String) (f : V → V) (l : List (String × V)) :
    (updateAt k f l).lookup k = (l.lookup k).map f := by
  induction l with
  | nil => rfl
  | cons p rest ih =>
    obtain ⟨k', v⟩ := p
    by_cases h : k' = k
    · subst h; simp [updateAt, List.lookup]
    · have h' : (k == k') = false := by simp [Ne.symm h]
      simp [updateAt, h, List.lookup, h', ih]

/-- Looking up any other key is unaffected by `updateAt`. -/
lemma lookup_updateAt_ne (k k' : String) (hne : k' ≠ k) (f : V → V)
    (l : List (String × V)) : (updateAt k f l).lookup k' = l.lookup k' := by
  induction l with
  | nil => rfl
  | cons p rest ih =>
    obtain ⟨k₀, v⟩ := p
    by_cases h : k₀ = k
    · subst h
      have h' : (k' == k₀) = false := by simp [hne]
      simp [updateAt, List.lookup, h']
    · simp [updateAt, h, List.lookup, ih]

/-- A successful lookup survives appending on the right. -/
lemma lookup_append_of_some (l l₂ : List (String × V)) (k : String) (v : V)
    (h : l.lookup k = some v) : (l ++ l₂).lookup k = some v := by
  induction l with
  | nil => simp [List.lookup] at h
  | cons p rest ih =>
    obtain ⟨k₀, v₀⟩ := p
    by_cases hk : k == k₀
    · simp_all [List.lookup]
    · simp only [List.lookup, hk] at h
      simpa [List.lookup, hk] using ih h

/-- Appending a fresh binding at the end makes it visible when the key was
absent. -/
lemma lookup_append_single (l : List (String × V)) (k : String) (v : V)
    (h : l.lookup k = none) : (l ++ [(k, v)]).lookup k = some v := by
  induction l with
  | nil => simp [List.lookup]
  | cons p rest ih =>
    obtain ⟨k₀, v₀⟩ := p
    by_cases hk : k == k₀
    · simp [List.lookup, hk] at h
    · simp only [List.lookup, hk] at h
      simpa [List.lookup, hk] using ih h

/-- A key that fails to look up has no occurrence at all. -/
lemma not_mem_keys_of_lookup_none (l : List (String × V)) (k : String)
    (h : l.lookup k = none) : ∀ p ∈ l, p.1 ≠ k := by
  induction l with
  | nil => intro p hp; cases hp
  | cons q rest ih =>
    obtain ⟨k₀, v₀⟩ := q
    by_cases hk : k == k₀
    · simp [List.lookup, hk] at h
    · simp only [List.lookup, hk] at h
      intro p hp
      rcases List.mem_cons.mp hp with hp' | hp'
      · subst hp'
        simpa [eq_comm] using (beq_iff_eq.not.mp (by simpa using hk))
      · exact ih h p hp'

/-- Every element of `updateAt k f l` is an element of `l`, except possibly
the first occurrence of `k`, which becomes `(k, f old)` where `old` is the
looked-up value. -/
lemma mem_updateAt_of_lookup (k : String) (f : V → V) (l : List (String × V))
    (old : V) (h : l.lookup k = some old) :
    ∀ p ∈ updateAt k f l, p ∈ l ∨ p = (k, f old) := by
  induction l with
  | nil => intro p hp; cases hp
  | cons q rest ih =>
    obtain ⟨k₀, v₀⟩ := q
    by_cases hk : k₀ = k
    · subst hk
      simp only [List.lookup, beq_self_eq_true] at h
      intro p hp
      rw [updateAt, if_pos rfl] at hp
      rcases List.mem_cons.mp hp with hp' | hp'
      · right; rw [hp']; cases h; rfl
      · left; exact List.mem_cons_of_mem _ hp'
    · have hk' : (k == k₀) = false := by simp [Ne.symm hk]
      simp only [List.lookup, hk'] at h
      intro p hp
      rw [updateAt, if_neg hk] at hp
      rcases List.mem_cons.mp hp with hp' | hp'
      · left; exact hp' ▸ List.mem_cons_self _ _
      · rcases ih h p hp' with hp'' | hp''
        · left; exact List.mem_cons_of_mem _ hp''
        · right; exact hp''

/-! Helper lemmas about the chunk loop. -/

/-- An invariant preserved by every loop step holds after the whole loop. -/
lemma foldl_processChunk_inv (oracle : Nat → Except String ChunkResult)
    (P : RunState → Prop)
    (hstep : ∀ st chunk, P st → P (processChunk oracle st chunk)) :
    ∀ (chunks : List (List Comment)) (st : RunState),
      P st → P (chunks.foldl (processChunk oracle) st) := by
  intro chunks
  induction chunks with
  | nil => intro st h; exact h
  | cons c cs ih => intro st h; exact ih _ (hstep _ _ h)

/-- `allMerged` can only go from `true` to `false` in one step. -/
lemma processChunk_allMerged_mono (oracle : Nat → Except String ChunkResult)
    (st : RunState) (chunk : List Comment)
    (h : (processChunk oracle st chunk).allMerged = true) : st.allMerged = true := by
  rw [processChunk] at h
  split at h
  · exact h
  · cases heq : oracle st.calls with
    | error e =>
      rw [heq] at h
      simp only [attemptChunk] at h
      exact absurd h (by simp)
    | ok r =>
      rw [heq] at h
      simp only [attemptChunk] at h
      by_cases htm : (mergeThemes st.agg.key_themes r.key_themes).2
      · rw [if_pos htm] at h
        exact h
      · rw [if_neg htm] at h
        exact absurd h (by simp)

/-- `allMerged` can only go from `true` to `false` across the loop. -/
lemma foldl_allMerged_mono (oracle : Nat → Except String ChunkResult) :
    ∀ (chunks : List (List Comment)) (st : RunState),
      ((chunks.foldl (processChunk oracle) st).allMerged = true) → st.allMerged = true := by
  intro chunks
  induction chunks with
  | nil => intro st h; exact h
  | cons c cs ih =>
    intro st h
    exact processChunk_allMerged_mono oracle st c (ih _ h)

/-- An invariant preserved by every non-failing loop step holds after a loop
whose every attempted chunk merged. -/
lemma foldl_processChunk_inv_merged (oracle : Nat → Except String ChunkResult)
    (P : RunState → Prop)
    (hstep : ∀ st chunk, P st → (processChunk oracle st chunk).allMerged = true →
      P (processChunk oracle st chunk)) :
    ∀ (chunks : List (List Comment)) (st : RunState),
      P st → (chunks.foldl (processChunk oracle) st).allMerged = true →
      P (chunks.foldl (processChunk oracle) st) := by
  intro chunks
  induction chunks with
  | nil => intro st h _; exact h
  | cons c cs ih =>
    intro st h hall
    exact ih _ (hstep _ _ h (foldl_allMerged_mono oracle cs _ hall)) hall

/-! Claim C1: the final average is the count-weighted mean. -/

/-- Total weight of the recorded per-chunk statistics: the total number of
non-empty comments sent in fully merged chunks. -/
def sumWeights (stats : List (ℚ × Nat)) : Nat := (stats.map Prod.snd).sum

/-- Weighted score total of the recorded per-chunk statistics. -/
def weightedSum (stats : List (ℚ × Nat)) : ℚ :=
  (stats.map (fun p => p.1 * (p.2 : ℚ))).sum

/-- The count-weighted mean of chunk-level average scores, 0 when the
divisor is zero. -/
def weightedMean (stats : List (ℚ × Nat)) : ℚ :=
  if sumWeights stats = 0 then 0 else weightedSum stats / (sumWeights stats : ℚ)

/-- The loop invariant for the weighted-average computation, maintained as
long as every attempted chunk merged. -/
def ScoreInv (st : RunState) : Prop :=
  st.processed = sumWeights st.stats ∧ st.scoreSum = weightedSum st.stats ∧
  st.agg.overall_sentiment.average_score = 0

lemma scoreInv_step (oracle : Nat → Except String ChunkResult)
    (st : RunState) (chunk : List Comment) (h : ScoreInv st)
    (hall : (processChunk oracle st chunk).allMerged = true) :
    ScoreInv (processChunk oracle st chunk) := by
  obtain ⟨h1, h2, h3⟩ := h
  rw [processChunk] at hall ⊢
  by_cases hemp : (chunkTexts chunk).isEmpty
  · rw [if_pos hemp]
    exact ⟨h1, h2, h3⟩
  · rw [if_neg hemp] at hall ⊢
    cases heq : oracle st.calls with
    | error e =>
      rw [heq] at hall
      simp only [attemptChunk] at hall
      exact absurd hall (by simp)
    | ok r =>
      rw [heq] at hall
      simp only [attemptChunk] at hall ⊢
      by_cases htm : (mergeThemes st.agg.key_themes r.key_themes).2
      · rw [if_pos htm]
        refine ⟨?_, ?_, ?_⟩
        · dsimp only
          simp [sumWeights, h1]
        · dsimp only
          simp [weightedSum, h2]
        · dsimp only
          simpa [addSentiment] using h3
      · rw [if_neg htm] at hall
        exact absurd hall (by simp)

/-- Claim C1 (confirmed): whenever every attempted chunk is successfully
merged, the final `average_score` is exactly the count-weighted mean of the
chunk-level average scores, each weighted by the number of non-empty
comments sent in that chunk (the recorded `stats`), and 0 when the total
weight is zero. The weighted-average scenario of the claim (chunks of 5
eligible comments with averages 0.8 and -0.2 merging to 0.3) is
instantiated in the witness below. -/
theorem bulk_average_is_weighted_mean (chunkSize : Nat) (comments : List Comment)
    (oracle : Nat → Except String ChunkResult)
    (hne : comments ≠ [])
    (hok : (runOf chunkSize comments oracle).allMerged = true) :
    (analyzeBulkWith chunkSize comments oracle).1 =
      BulkResult.result (finalize (runOf chunkSize comments oracle)) ∧
    (finalize (runOf chunkSize comments oracle)).overall_sentiment.average_score =
      weightedMean (runOf chunkSize comments oracle).stats := by
  have hInv : ScoreInv (runOf chunkSize comments oracle) := by
    refine foldl_processChunk_inv_merged oracle ScoreInv
      (fun st chunk h hall => scoreInv_step oracle st chunk h hall)
      (chunksOf chunkSize comments) {} ⟨rfl, rfl, rfl⟩ hok
  obtain ⟨h1, h2, h3⟩ := hInv
  constructor
  · rw [analyzeBulkWith, if_neg (by simpa [List.isEmpty_iff] using hne)]
  · rw [finalize, weightedMean]
    by_cases hp : 0 < (runOf chunkSize comments oracle).processed
    · rw [if_pos hp, if_neg (by omega), h1, h2]
    · rw [if_neg hp, if_pos (by omega)]
      exact h3

/-- Ten non-empty comments, split by chunk size 5 into chunks A and B of 5
eligible comments each. -/
def cmtsC1 : List Comment :=
  [⟨"a"⟩, ⟨"b"⟩, ⟨"c"⟩, ⟨"d"⟩, ⟨"e"⟩, ⟨"f"⟩, ⟨"g"⟩, ⟨"h"⟩, ⟨"i"⟩, ⟨"j"⟩]

/-- A provider returning average score 0.8 for chunk A and -0.2 for chunk
B. -/
def orcC1 : Nat → Except String ChunkResult := fun k =>
  if k = 0 then .ok { overall_sentiment := { average_score := some (4/5) } }
  else if k = 1 then .ok { overall_sentiment := { average_score := some (-(1/5)) } }
  else .error "unused"

/-- Witness for C1: the claim's concrete scenario — chunk A (5 eligible
comments, average 0.8) and chunk B (5 eligible comments, average -0.2)
merge to overall average (0.8·5 + (-0.2)·5) / 10 = 0.3. -/
theorem bulk_average_is_weighted_mean_witness :
    cmtsC1 ≠ [] ∧ (runOf 5 cmtsC1 orcC1).allMerged = true ∧
    (finalize (runOf 5 cmtsC1 orcC1)).overall_sentiment.average_score = 3/10 :=
  ⟨by decide, by decide,
    ((bulk_average_is_weighted_mean 5 cmtsC1 orcC1 (by decide) (by decide)).2).trans
      (by with_unfolding_all rfl)⟩

/-! Claim C4: if every chunk's analysis call raises, the result is the
all-zero aggregate and no exception escapes (the embedding is total: the
per-chunk handler at analyzer.py lines 217-220 swallows every chunk
error). -/

/-- The aggregate dict is never touched by a chunk whose API call raised. -/
lemma failedInv_step (oracle : Nat → Except String ChunkResult)
    (herr : ∀ k r, oracle k ≠ Except.ok r)
    (st : RunState) (chunk : List Comment)
    (h : st.agg = {} ∧ st.scoreSum = 0) :
    (processChunk oracle st chunk).agg = {} ∧
    (processChunk oracle st chunk).scoreSum = 0 := by
  rw [processChunk]
  split
  · exact h
  · cases heq : oracle st.calls with
    | error e => simpa [attemptChunk] using h
    | ok r => exact absurd heq (herr _ _)

/-- Claim C4 (confirmed): for a non-empty comment list whose every analysis
call raises, `analyze_bulk_comments` still returns a finalized result, with
positive, neutral and negative counts 0 and `average_score` 0. -/
theorem all_chunks_failed_all_zero (chunkSize : Nat) (comments : List Comment)
    (oracle : Nat → Except String ChunkResult)
    (hne : comments ≠ []) (herr : ∀ k r, oracle k ≠ Except.ok r) :
    (analyzeBulkWith chunkSize comments oracle).1 =
      BulkResult.result (finalize (runOf chunkSize comments oracle)) ∧
    (finalize (runOf chunkSize comments oracle)).overall_sentiment.positive = 0 ∧
    (finalize (runOf chunkSize comments oracle)).overall_sentiment.neutral = 0 ∧
    (finalize (runOf chunkSize comments oracle)).overall_sentiment.negative = 0 ∧
    (finalize (runOf chunkSize comments oracle)).overall_sentiment.average_score = 0 := by
  have hInv : (runOf chunkSize comments oracle).agg = {} ∧
      (runOf chunkSize comments oracle).scoreSum = 0 :=
    foldl_processChunk_inv oracle _
      (fun st chunk h => failedInv_step oracle herr st chunk h)
      (chunksOf chunkSize comments) {} ⟨rfl, rfl⟩
  refine ⟨?_, ?_, ?_, ?_, ?_⟩
  · rw [analyzeBulkWith, if_neg (by simpa [List.isEmpty_iff] using hne)]
  · rw [finalize, hInv.1]
  · rw [finalize, hInv.1]
  · rw [finalize, hInv.1]
  · rw [finalize]
    by_cases hp : 0 < (runOf chunkSize comments oracle).processed
    · rw [if_pos hp, hInv.2]
      dsimp only
      exact zero_div _
    · rw [if_neg hp, hInv.1]

/-- A provider whose every call raises. -/
def orcC4 : Nat → Except String ChunkResult := fun _ => .error "boom"

/-- Witness for C4 at a concrete non-empty input. -/
theorem all_chunks_failed_all_zero_witness :
    ([(⟨"x"⟩ : Comment)] ≠ []) ∧
    (finalize (runOf BULK_CHUNK_SIZE [(⟨"x"⟩ : Comment)] orcC4)).overall_sentiment.positive = 0 ∧
    (finalize (runOf BULK_CHUNK_SIZE [(⟨"x"⟩ : Comment)] orcC4)).overall_sentiment.average_score = 0 :=
  ⟨by decide,
    (all_chunks_failed_all_zero BULK_CHUNK_SIZE [⟨"x"⟩] orcC4 (by decide)
      (fun _ _ h => Except.noConfusion h)).2.1,
    (all_chunks_failed_all_zero BULK_CHUNK_SIZE [⟨"x"⟩] orcC4 (by decide)
      (fun _ _ h => Except.noConfusion h)).2.2.2.2⟩

/-! Claim C6: the empty-input short circuit of analyzer.py lines 123-124. -/

/-- Claim C6 (confirmed): an empty comment list returns the literal empty
dict before any chunk is built, with zero API calls made, for every oracle
and chunk size. -/
theorem empty_input_empty_result (chunkSize : Nat)
    (oracle : Nat → Except String ChunkResult) :
    analyzeBulkWith chunkSize [] oracle = (BulkResult.emptyDict, 0) ∧
    chunksOf chunkSize ([] : List Comment) = [] := by
  constructor
  · rfl
  · rw [chunksOf]
    split
    · rfl
    · rfl

/-! Claim C5: finalization sorts entities by count descending (stable,
truncated to 20) and themes by frequency descending (stable, not
truncated). -/

/-- Claim C5 (confirmed): for every finished run state, the finalized
`top_entities` list has at most 20 elements, equals the first 20 elements
of the stable descending sort of the stored entity values, and is sorted by
count descending; stability (ties keep insertion order) is expressed by the
filter identities: restricting the sorted list to any one key value yields
exactly the insertion-ordered sublist of the input. The finalized
`key_themes` list is a permutation of the stored theme values (so it is not
truncated), sorted by frequency descending, with the same stability
property. -/
theorem finalize_sorted_truncated (st : RunState) :
    (finalize st).top_entities.length ≤ 20 ∧
    (finalize st).top_entities =
      (sortDesc entityKey (st.agg.top_entities.map Prod.snd)).take 20 ∧
    (finalize st).top_entities.Pairwise (fun a b => entityKey b ≤ entityKey a) ∧
    (∀ c : Int,
      (sortDesc entityKey (st.agg.top_entities.map Prod.snd)).filter
          (fun e => entityKey e == c) =
        (st.agg.top_entities.map Prod.snd).filter (fun e => entityKey e == c)) ∧
    List.Perm (finalize st).key_themes (st.agg.key_themes.map Prod.snd) ∧
    (finalize st).key_themes.Pairwise (fun a b => themeKey b ≤ themeKey a) ∧
    (∀ c : Int,
      (finalize st).key_themes.filter (fun t => themeKey t == c) =
        (st.agg.key_themes.map Prod.snd).filter (fun t => themeKey t == c)) := by
  refine ⟨?_, rfl, ?_, ?_, ?_, ?_, ?_⟩
  · rw [finalize]
    dsimp only
    rw [List.length_take]
    exact min_le_left _ _
  · exact ((sortDesc_sorted entityKey _).sublist (List.take_sublist _ _))
  · intro c
    exact sortDesc_filter_key entityKey c _
  · exact sortDesc_perm themeKey _
  · exact sortDesc_sorted themeKey _
  · intro c
    exact sortDesc_filter_key themeKey c _

/-! Claim C7: the chunker. The source numbers each eligible comment by its
position within the whole chunk (`enumerate(chunk)` before the filter), so
the numbering is not re-numbered consecutively 1..k when empty-text comments
sit among eligible ones. -/

/-- Specification-side chunk text builder, following the spec wording:
the eligible comments of the chunk are re-numbered consecutively 1..k for
prompt construction (enumerate after the filter). For comparison with the
source's `chunkTexts`. -/
def chunkTextsSpec (chunk : List Comment) : List String :=
  ((chunk.filter (fun c => pyStrip c.text != "")).enum).map
    (fun p => commentLabel p.1 (pyStrip p.2.text))

/-- Counterexample for C7 as stated: a chunk whose first comment is
whitespace-only labels its single eligible comment "Comment 2", not
"Comment 1" as consecutive re-numbering would. -/
theorem chunk_numbering_counterexample :
    chunkTexts [⟨" "⟩, ⟨"hi"⟩] = ["Comment 2: hi"] ∧
    chunkTextsSpec [⟨" "⟩, ⟨"hi"⟩] = ["Comment 1: hi"] ∧
    chunkTexts [⟨" "⟩, ⟨"hi"⟩] ≠ chunkTextsSpec [⟨" "⟩, ⟨"hi"⟩] :=
  ⟨by decide, by decide, by decide⟩

/-- Every chunk produced with fuel at hand has at most `n` elements. -/
lemma chunksOfGo_length_le (n : Nat) :
    ∀ (fuel : Nat) (l : List α) (chunk : List α),
      chunk ∈ chunksOfGo n fuel l → chunk.length ≤ n := by
  intro fuel
  induction fuel with
  | zero =>
    intro l chunk h
    cases l <;> simp [chunksOfGo] at h
  | succ fuel ih =>
    intro l chunk h
    cases l with
    | nil => simp [chunksOfGo] at h
    | cons x xs =>
      rw [chunksOfGo] at h
      rcases List.mem_cons.mp h with h' | h'
      · subst h'
        rw [List.length_take]
        exact min_le_left _ _
      · exact ih _ _ h'

/-- With enough fuel the produced chunks concatenate back to the input. -/
lemma chunksOfGo_join (n : Nat) (hn : 0 < n) :
    ∀ (fuel : Nat) (l : List α), l.length ≤ fuel → (chunksOfGo n fuel l).flatten = l := by
  intro fuel
  induction fuel with
  | zero =>
    intro l hl
    cases l with
    | nil => rfl
    | cons x xs => simp at hl
  | succ fuel ih =>
    intro l hl
    cases l with
    | nil => rfl
    | cons x xs =>
      rw [chunksOfGo, List.flatten_cons, ih ((x :: xs).drop n) ?_]
      · exact List.take_append_drop n (x :: xs)
      · rw [List.length_drop]
        simp only [List.length_cons] at hl ⊢
        omega

/-- The produced chunks are the consecutive slices of the input. -/
lemma chunksOf_join (n : Nat) (hn : 0 < n) (l : List α) :
    (chunksOf n l).flatten = l := by
  rw [chunksOf, if_neg (by omega)]
  exact chunksOfGo_join n hn _ l le_rfl

/-- Dropping the indices from the filtered enumeration recovers the plain
filtered list: the texts sent are exactly those of the eligible comments,
in order. -/
lemma enumFrom_filter_map_snd (p : α → Bool) :
    ∀ (i : Nat) (l : List α),
      ((List.enumFrom i l).filter (fun q => p q.2)).map Prod.snd = l.filter p := by
  intro i l
  induction l generalizing i with
  | nil => rfl
  | cons x xs ih =>
    rw [List.enumFrom, List.filter_cons, List.filter_cons]
    by_cases hx : p x
    · simp only [hx, if_pos, List.map_cons]
      rw [ih]
    · simp only [hx, if_neg, Bool.false_eq_true, not_false_eq_true]
      exact ih (i + 1)

/-- Claim C7 (corrected): for a positive chunk size, the chunk loop slices
the input into consecutive chunks of at most `chunk_size` comments whose
concatenation is the input; the texts sent for a chunk are exactly the
non-empty-trimmed comments of that chunk in order, but each is labelled
with its 1-based position within the whole chunk (gaps where empty-text
comments sit), not re-numbered 1..k; and a chunk with no eligible comment
is skipped entirely, leaving the loop state (and so the number of analysis
calls) unchanged. -/
theorem chunker_props (chunkSize : Nat) (comments : List Comment)
    (oracle : Nat → Except String ChunkResult) (hpos : 0 < chunkSize) :
    (∀ chunk ∈ chunksOf chunkSize comments, chunk.length ≤ chunkSize) ∧
    (chunksOf chunkSize comments).flatten = comments ∧
    (∀ chunk : List Comment,
      (chunkTexts chunk).length = (chunk.filter (fun c => pyStrip c.text != "")).length ∧
      chunkTexts chunk =
        (chunk.enum.filter (fun p => pyStrip p.2.text != "")).map
          (fun p => commentLabel p.1 (pyStrip p.2.text))) ∧
    (∀ (st : RunState) (chunk : List Comment),
      chunkTexts chunk = [] → processChunk oracle st chunk = st) := by
  refine ⟨?_, chunksOf_join chunkSize hpos comments, ?_, ?_⟩
  · intro chunk h
    rw [chunksOf, if_neg (by omega)] at h
    exact chunksOfGo_length_le chunkSize _ _ _ h
  · intro chunk
    constructor
    · have h3 := congrArg List.length
        (enumFrom_filter_map_snd (fun c => pyStrip c.text != "") 0 chunk)
      rw [List.length_map] at h3
      rw [chunkTexts, List.length_map]
      exact h3
    · rfl
  · intro st chunk h
    rw [processChunk, if_pos (by simp [h])]

/-- A three-comment input whose middle comment is whitespace-only. -/
def cmtsC7 : List Comment := [⟨"hi"⟩, ⟨" "⟩, ⟨"yo"⟩]

/-- An always-failing provider, unused by the skipped-chunk property. -/
def orcC7 : Nat → Except String ChunkResult := fun _ => .error "e"

/-- Witness for C7 at chunk size 10. -/
theorem chunker_props_witness :
    (∀ chunk ∈ chunksOf 10 cmtsC7, chunk.length ≤ 10) ∧
    (chunksOf 10 cmtsC7).flatten = cmtsC7 ∧
    (∀ chunk : List Comment,
      (chunkTexts chunk).length = (chunk.filter (fun c => pyStrip c.text != "")).length ∧
      chunkTexts chunk =
        (chunk.enum.filter (fun p => pyStrip p.2.text != "")).map
          (fun p => commentLabel p.1 (pyStrip p.2.text))) ∧
    (∀ (st : RunState) (chunk : List Comment),
      chunkTexts chunk = [] → processChunk orcC7 st chunk = st) :=
  chunker_props 10 cmtsC7 orcC7 (by decide)

/-! Frame lemmas for the entity and theme merges: once a key exists, later
merges only touch the fields the code adds to. -/

/-- One entity merge never changes the stored display name or type of an
existing key (analyzer.py line 180 updates only `"count"`). -/
lemma mergeEntity_frame (st : List (String × StoredEntity)) (e : ChunkEntity)
    (k : String) (old : StoredEntity) (h : st.lookup k = some old) :
    ∃ new, (mergeEntity st e).lookup k = some new ∧
      new.name = old.name ∧ new.type = old.type := by
  rw [mergeEntity]
  by_cases hk : normKey e.name = ""
  · rw [if_pos hk]
    exact ⟨old, h, rfl, rfl⟩
  · rw [if_neg hk]
    cases hl : st.lookup (normKey e.name) with
    | some v =>
      by_cases hkk : k = normKey e.name
      · subst hkk
        refine ⟨{ old with count := old.count + e.count.getD 1 }, ?_, rfl, rfl⟩
        rw [lookup_updateAt_self, h]
        rfl
      · rw [lookup_updateAt_ne _ _ hkk]
        exact ⟨old, h, rfl, rfl⟩
    | none =>
      exact ⟨old, lookup_append_of_some st _ k old h, rfl, rfl⟩

/-- Folded version of `mergeEntity_frame` over a whole chunk's entities. -/
lemma mergeEntities_frame (es : List ChunkEntity) :
    ∀ (st : List (String × StoredEntity)) (k : String) (old : StoredEntity),
      st.lookup k = some old →
      ∃ new, (mergeEntities st es).lookup k = some new ∧
        new.name = old.name ∧ new.type = old.type := by
  induction es with
  | nil => intro st k old h; exact ⟨old, h, rfl, rfl⟩
  | cons e es ih =>
    intro st k old h
    obtain ⟨mid, hm, hn, ht⟩ := mergeEntity_frame st e k old h
    obtain ⟨new, hnew, hn2, ht2⟩ := ih (mergeEntity st e) k mid hm
    exact ⟨new, hnew, hn2.trans hn, ht2.trans ht⟩

/-- One theme merge never changes the stored theme name or sentiment of an
existing key, and only ever appends to its sample list (analyzer.py lines
193-199 update only `"frequency"` and extend `"sample_comments"`). -/
lemma mergeTheme_frame (st : List (String × ThemeRec)) (t : ThemeRec)
    (st' : List (String × ThemeRec)) (hm : mergeTheme st t = some st')
    (k : String) (old : ThemeRec) (h : st.lookup k = some old) :
    ∃ new tail, st'.lookup k = some new ∧ new.theme = old.theme ∧
      new.sentiment = old.sentiment ∧
      new.sample_comments = old.sample_comments ++ tail := by
  rw [mergeTheme] at hm
  by_cases hk : normKey t.theme = ""
  · rw [if_pos hk] at hm
    injection hm with hm
    subst hm
    exact ⟨old, [], h, rfl, rfl, (List.append_nil _).symm⟩
  · rw [if_neg hk] at hm
    cases hl : st.lookup (normKey t.theme) with
    | some oldt =>
      rw [hl] at hm
      dsimp only at hm
      cases hf : oldt.frequency with
      | none =>
        rw [hf] at hm
        cases hm
      | some f =>
        rw [hf] at hm
        injection hm with hm
        subst hm
        by_cases hkk : k = normKey t.theme
        · subst hkk
          have hoo : old = oldt := by
            rw [h] at hl
            injection hl
          subst hoo
          refine ⟨{ old with
              frequency := some (f + t.frequency.getD 1),
              sample_comments := old.sample_comments ++
                t.sample_comments.filter (fun c => !(old.sample_comments.contains c)) },
            t.sample_comments.filter (fun c => !(old.sample_comments.contains c)),
            ?_, rfl, rfl, rfl⟩
          rw [lookup_updateAt_self, h]
          rfl
        · rw [lookup_updateAt_ne _ _ hkk]
          exact ⟨old, [], h, rfl, rfl, (List.append_nil _).symm⟩
    | none =>
      rw [hl] at hm
      injection hm with hm
      subst hm
      exact ⟨old, [], lookup_append_of_some st _ k old h, rfl, rfl, (List.append_nil _).symm⟩

/-- Folded version of `mergeTheme_frame` over a whole chunk's themes; holds
for the state the loop leaves behind whether or not a `KeyError` stopped
it. -/
lemma mergeThemes_frame (ts : List ThemeRec) :
    ∀ (st : List (String × ThemeRec)) (k : String) (old : ThemeRec),
      st.lookup k = some old →
      ∃ new tail, (mergeThemes st ts).1.lookup k = some new ∧
        new.theme = old.theme ∧ new.sentiment = old.sentiment ∧
        new.sample_comments = old.sample_comments ++ tail := by
  induction ts with
  | nil => intro st k old h; exact ⟨old, [], h, rfl, rfl, (List.append_nil _).symm⟩
  | cons t ts ih =>
    intro st k old h
    rw [mergeThemes]
    cases hm : mergeTheme st t with
    | none => exact ⟨old, [], h, rfl, rfl, (List.append_nil _).symm⟩
    | some st' =>
      obtain ⟨mid, tail1, hmid, ht1, hs1, hsam1⟩ := mergeTheme_frame st t st' hm k old h
      obtain ⟨new, tail2, hnew, ht2, hs2, hsam2⟩ := ih st' k mid hmid
      refine ⟨new, tail1 ++ tail2, hnew, ht2.trans ht1, hs2.trans hs1, ?_⟩
      rw [hsam2, hsam1, List.append_assoc]

/-- Claim C10 (confirmed): once an entity or theme key exists in the running
aggregate, processing any further chunk changes at most the entity's count,
and the theme's frequency and sample list (the samples only by appending):
the stored entity display name and type, and the stored theme's name and
sentiment, keep the values from the first chunk that introduced the key. -/
theorem merge_frame_first_seen (oracle : Nat → Except String ChunkResult)
    (st : RunState) (chunk : List Comment) :
    (∀ k old, st.agg.top_entities.lookup k = some old →
      ∃ new, (processChunk oracle st chunk).agg.top_entities.lookup k = some new ∧
        new.name = old.name ∧ new.type = old.type) ∧
    (∀ k old, st.agg.key_themes.lookup k = some old →
      ∃ new tail, (processChunk oracle st chunk).agg.key_themes.lookup k = some new ∧
        new.theme = old.theme ∧ new.sentiment = old.sentiment ∧
        new.sample_comments = old.sample_comments ++ tail) := by
  rw [processChunk]
  by_cases hemp : (chunkTexts chunk).isEmpty
  · rw [if_pos hemp]
    exact ⟨fun k old h => ⟨old, h, rfl, rfl⟩,
      fun k old h => ⟨old, [], h, rfl, rfl, (List.append_nil _).symm⟩⟩
  · rw [if_neg hemp]
    cases heq : oracle st.calls with
    | error e =>
      simp only [attemptChunk]
      exact ⟨fun k old h => ⟨old, h, rfl, rfl⟩,
        fun k old h => ⟨old, [], h, rfl, rfl, (List.append_nil _).symm⟩⟩
    | ok r =>
      simp only [attemptChunk]
      by_cases htm : (mergeThemes st.agg.key_themes r.key_themes).2
      · rw [if_pos htm]
        exact ⟨fun k old h => mergeEntities_frame r.top_entities st.agg.top_entities k old h,
          fun k old h => mergeThemes_frame r.key_themes st.agg.key_themes k old h⟩
      · rw [if_neg htm]
        exact ⟨fun k old h => mergeEntities_frame r.top_entities st.agg.top_entities k old h,
          fun k old h => mergeThemes_frame r.key_themes st.agg.key_themes k old h⟩

/-- The stored theme record of the concrete C10 scenario. -/
def themeC10 : ThemeRec :=
  { theme := "T", frequency := some 1, sentiment := some "positive",
    sample_comments := ["s"] }

/-- A run state holding one entity under key "k" and one theme under key
"t", as left by a first chunk. -/
def stC10 : RunState :=
  { agg := { top_entities := [("k", ⟨"K", 1, "T"⟩)],
             key_themes := [("t", themeC10)] } }

/-- A later chunk mentioning the same entity and theme keys. -/
def orcC10 : Nat → Except String ChunkResult := fun _ =>
  .ok { top_entities := [{ name := "K", count := some 2 }],
        key_themes := [{ theme := "T", frequency := some 1, sample_comments := ["s2"] }] }

/-- Witness for C10 at a concrete populated aggregate. -/
theorem merge_frame_first_seen_witness :
    (∃ new, (processChunk orcC10 stC10 [⟨"x"⟩]).agg.top_entities.lookup "k" = some new ∧
      new.name = "K" ∧ new.type = "T") ∧
    (∃ new tail, (processChunk orcC10 stC10 [⟨"x"⟩]).agg.key_themes.lookup "t" = some new ∧
      new.theme = "T" ∧ new.sentiment = some "positive" ∧
      new.sample_comments = ["s"] ++ tail) :=
  ⟨(merge_frame_first_seen orcC10 stC10 [⟨"x"⟩]).1 "k" ⟨"K", 1, "T"⟩ (by decide),
   (merge_frame_first_seen orcC10 stC10 [⟨"x"⟩]).2 "t" themeC10 (by decide)⟩

/-! Claim C2: sample deduplication. The code deduplicates an incoming batch
only against the samples already stored before the batch (analyzer.py line
194 builds the `existing_samples` set once), and a brand-new theme stores
its list verbatim (line 201), so duplicates inside a single chunk's
`sample_comments` survive. -/

/-- A provider whose single chunk repeats one sample string. -/
def orcC2 : Nat → Except String ChunkResult := fun _ =>
  .ok { key_themes := [{ theme := "t", sample_comments := ["a", "a"] }] }

/-- Counterexample for C2 as stated: a single chunk repeating "a" in one
theme's `sample_comments` yields a merged sample list with a duplicate. -/
theorem theme_sample_dup_counterexample :
    ((finalize (runOf 10 [⟨"x"⟩] orcC2)).key_themes.map ThemeRec.sample_comments) =
      [["a", "a"]] ∧
    ¬ (∀ t ∈ (finalize (runOf 10 [⟨"x"⟩] orcC2)).key_themes,
        t.sample_comments.Nodup) :=
  ⟨by decide, by decide⟩

/-- All sample lists stored in a theme map are duplicate-free. -/
def ThemesNodup (m : List (String × ThemeRec)) : Prop :=
  ∀ p ∈ m, p.2.sample_comments.Nodup

/-- A successful lookup exhibits a member of the association list. -/
lemma lookup_some_mem (l : List (String × V)) (k : String) (v : V)
    (h : l.lookup k = some v) : (k, v) ∈ l := by
  induction l with
  | nil => simp [List.lookup] at h
  | cons p rest ih =>
    obtain ⟨k₀, v₀⟩ := p
    by_cases hk : k == k₀
    · simp only [List.lookup, hk] at h
      injection h with h
      subst h
      have : k = k₀ := by simpa using hk
      subst this
      exact List.mem_cons_self _ _
    · simp only [List.lookup, hk] at h
      exact List.mem_cons_of_mem _ (ih h)

/-- One theme merge keeps all stored sample lists duplicate-free, provided
the incoming record's own list is duplicate-free. -/
lemma mergeTheme_nodup (st : List (String × ThemeRec)) (t : ThemeRec)
    (hst : ThemesNodup st) (ht : t.sample_comments.Nodup)
    (st' : List (String × ThemeRec)) (hm : mergeTheme st t = some st') :
    ThemesNodup st' := by
  rw [mergeTheme] at hm
  by_cases hk : normKey t.theme = ""
  · rw [if_pos hk] at hm
    injection hm with hm
    subst hm
    exact hst
  · rw [if_neg hk] at hm
    cases hl : st.lookup (normKey t.theme) with
    | some old =>
      rw [hl] at hm
      dsimp only at hm
      cases hf : old.frequency with
      | none =>
        rw [hf] at hm
        cases hm
      | some f =>
        rw [hf] at hm
        injection hm with hm
        subst hm
        intro p hp
        rcases mem_updateAt_of_lookup _ _ st old hl p hp with hp' | hp'
        · exact hst p hp'
        · subst hp'
          refine List.Nodup.append (hst _ (lookup_some_mem st _ old hl)) (ht.filter _) ?_
          intro a ha hafil
          have hcond := List.of_mem_filter hafil
          rw [Bool.not_eq_true'] at hcond
          simp at hcond
          exact hcond ha
    | none =>
      rw [hl] at hm
      injection hm with hm
      subst hm
      intro p hp
      rcases List.mem_append.mp hp with hp' | hp'
      · exact hst p hp'
      · have : p = (normKey t.theme, t) := by simpa using hp'
        subst this
        exact ht

/-- The theme loop of one chunk keeps the duplicate-free property, whether
or not it was stopped by a `KeyError`. -/
lemma mergeThemes_nodup (ts : List ThemeRec) :
    ∀ st, ThemesNodup st → (∀ t ∈ ts, t.sample_comments.Nodup) →
      ThemesNodup (mergeThemes st ts).1 := by
  induction ts with
  | nil => intro st h _; exact h
  | cons t ts ih =>
    intro st hst hts
    rw [mergeThemes]
    cases hm : mergeTheme st t with
    | none => exact hst
    | some st' =>
      exact ih st'
        (mergeTheme_nodup st t hst (hts t (List.mem_cons_self _ _)) st' hm)
        (fun u hu => hts u (List.mem_cons_of_mem _ hu))

/-- One loop step keeps the duplicate-free property when the provider only
ever delivers duplicate-free sample lists. -/
lemma themesNodup_step (oracle : Nat → Except String ChunkResult)
    (hwf : ∀ k r, oracle k = Except.ok r → ∀ t ∈ r.key_themes, t.sample_comments.Nodup)
    (st : RunState) (chunk : List Comment)
    (h : ThemesNodup st.agg.key_themes) :
    ThemesNodup (processChunk oracle st chunk).agg.key_themes := by
  rw [processChunk]
  split
  · exact h
  · cases heq : oracle st.calls with
    | error e => simpa [attemptChunk] using h
    | ok r =>
      simp only [attemptChunk]
      by_cases htm : (mergeThemes st.agg.key_themes r.key_themes).2
      · rw [if_pos htm]
        exact mergeThemes_nodup r.key_themes st.agg.key_themes h (hwf _ r heq)
      · rw [if_neg htm]
        exact mergeThemes_nodup r.key_themes st.agg.key_themes h (hwf _ r heq)

/-- Claim C2 (corrected): provided every chunk result delivered by the
provider has duplicate-free `sample_comments` lists, every merged theme's
sample list is duplicate-free; and, unconditionally, a theme merge only
ever appends to an existing key's sample list, so first-seen order is
preserved. (As literally stated — including a single chunk that repeats a
string — the claim is false, see the counterexample.) -/
theorem merged_theme_samples_nodup_append (chunkSize : Nat) (comments : List Comment)
    (oracle : Nat → Except String ChunkResult)
    (hwf : ∀ k r, oracle k = Except.ok r → ∀ t ∈ r.key_themes, t.sample_comments.Nodup) :
    (∀ t ∈ (finalize (runOf chunkSize comments oracle)).key_themes,
      t.sample_comments.Nodup) ∧
    (∀ (m : List (String × ThemeRec)) (t : ThemeRec) (m' : List (String × ThemeRec)),
      mergeTheme m t = some m' → ∀ k old, m.lookup k = some old →
        ∃ new tail, m'.lookup k = some new ∧
          new.sample_comments = old.sample_comments ++ tail) := by
  constructor
  · have hInv : ThemesNodup (runOf chunkSize comments oracle).agg.key_themes :=
      foldl_processChunk_inv oracle (fun st => ThemesNodup st.agg.key_themes)
        (fun st chunk h => themesNodup_step oracle hwf st chunk h)
        (chunksOf chunkSize comments) {} (fun p hp => absurd hp (List.not_mem_nil p))
    intro t ht
    have ht2 : t ∈ (runOf chunkSize comments oracle).agg.key_themes.map Prod.snd :=
      (sortDesc_perm themeKey _).mem_iff.mp ht
    obtain ⟨p, hp, hpt⟩ := List.mem_map.mp ht2
    exact hpt ▸ hInv p hp
  · intro m t m' hm k old h
    obtain ⟨new, tail, h1, _, _, h4⟩ := mergeTheme_frame m t m' hm k old h
    exact ⟨new, tail, h1, h4⟩

/-- A provider delivering a duplicate-free sample list for one theme. -/
def orcC2w : Nat → Except String ChunkResult := fun _ =>
  .ok { key_themes := [{ theme := "t", sample_comments := ["a", "b"] }] }

/-- Witness for the amended C2 at a concrete run. -/
theorem merged_theme_samples_nodup_append_witness :
    ∃ t, t ∈ (finalize (runOf 10 [(⟨"x"⟩ : Comment)] orcC2w)).key_themes ∧
      t.sample_comments.Nodup := by
  have h := (merged_theme_samples_nodup_append 10 [⟨"x"⟩] orcC2w
    (fun k r hr => by
      injection hr with hr
      subst hr
      decide)).1
  refine ⟨{ theme := "t", sample_comments := ["a", "b"] }, by decide, ?_⟩
  exact h _ (by decide)

/-! Claim C8: merging same-keyed entities sums their counts. -/

/-- `updateAt` never changes the key sequence. -/
lemma map_fst_updateAt (k : String) (f : V → V) (l : List (String × V)) :
    (updateAt k f l).map Prod.fst = l.map Prod.fst := by
  induction l with
  | nil => rfl
  | cons p rest ih =>
    obtain ⟨k₀, v⟩ := p
    by_cases h : k₀ = k
    · subst h; simp [updateAt]
    · simp [updateAt, h, ih]

/-- The number of entries under a key is unchanged by `updateAt`. -/
lemma countP_key_updateAt (k q : String) (f : V → V) (l : List (String × V)) :
    (updateAt k f l).countP (fun p => p.1 == q) = l.countP (fun p => p.1 == q) := by
  have h1 : ∀ (m : List (String × V)),
      m.countP (fun p => p.1 == q) = (m.map Prod.fst).countP (fun s => s == q) := by
    intro m
    rw [List.countP_map]
    rfl
  rw [h1, h1, map_fst_updateAt]

/-- A key that fails to look up has no entry at all. -/
lemma countP_key_zero_of_lookup_none (l : List (String × V)) (k : String)
    (h : l.lookup k = none) : l.countP (fun p => p.1 == k) = 0 := by
  rw [List.countP_eq_zero]
  intro p hp
  simpa using not_mem_keys_of_lookup_none l k h p hp

/-- Claim C8 (confirmed): merging two entity entries whose names agree after
trimming and lower-casing into an aggregate where that key is fresh leaves a
single entry under the lower-cased trimmed key, carrying the first entry's
display name and type, with count the sum of the two counts (each defaulting
to 1 when absent). -/
theorem entity_merge_sums_counts (st : List (String × StoredEntity))
    (e1 e2 : ChunkEntity)
    (hkey : normKey e2.name = normKey e1.name) (hne : normKey e1.name ≠ "")
    (hfresh : st.lookup (normKey e1.name) = none) :
    (mergeEntity (mergeEntity st e1) e2).lookup (normKey e1.name) =
      some ⟨e1.name, e1.count.getD 1 + e2.count.getD 1, e1.type.getD "OTHER"⟩ ∧
    (mergeEntity (mergeEntity st e1) e2).countP (fun p => p.1 == normKey e1.name) = 1 := by
  have h1 : mergeEntity st e1 =
      st ++ [(normKey e1.name, ⟨e1.name, e1.count.getD 1, e1.type.getD "OTHER"⟩)] := by
    rw [mergeEntity, if_neg hne, hfresh]
  have hlook : (mergeEntity st e1).lookup (normKey e1.name) =
      some ⟨e1.name, e1.count.getD 1, e1.type.getD "OTHER"⟩ := by
    rw [h1]
    exact lookup_append_single st _ _ hfresh
  have h2 : mergeEntity (mergeEntity st e1) e2 =
      updateAt (normKey e1.name)
        (fun old => { old with count := old.count + e2.count.getD 1 })
        (mergeEntity st e1) := by
    rw [mergeEntity, hkey, if_neg hne, hlook]
  constructor
  · rw [h2, lookup_updateAt_self, hlook]
    rfl
  · rw [h2, countP_key_updateAt, h1, List.countP_append,
      countP_key_zero_of_lookup_none st _ hfresh]
    simp

/-- First chunk's entity mention of "Tesla" (count 3, typed). -/
def e1C8 : ChunkEntity := { name := " Tesla", count := some 3, type := some "ORG" }

/-- Second chunk's entity mention, same name after trim and lower-case. -/
def e2C8 : ChunkEntity := { name := "tesla ", count := some 4 }

/-- Witness for C8: " Tesla"(3) merged with "tesla "(4) gives one entry
under key "tesla" with count 7, first-seen name and type. -/
theorem entity_merge_sums_counts_witness :
    (mergeEntity (mergeEntity [] e1C8) e2C8).lookup (normKey e1C8.name) =
      some ⟨" Tesla", 7, "ORG"⟩ ∧
    (mergeEntity (mergeEntity [] e1C8) e2C8).countP
      (fun p => p.1 == normKey e1C8.name) = 1 := by
  have h := entity_merge_sums_counts [] e1C8 e2C8 (by decide) (by decide) rfl
  exact ⟨h.1.trans (by decide), h.2⟩

/-! Claim C9: sentiment bounds. The code adds whatever integers and score
the provider returns without clamping (analyzer.py lines 167-172), so the
bounds only hold for well-formed provider results. -/

/-- A provider returning a negative `positive` count. -/
def orcC9 : Nat → Except String ChunkResult := fun _ =>
  .ok { overall_sentiment := { positive := some (-5) } }

/-- Counterexample for C9 as stated: a successful chunk carrying
`positive = -5` makes the final positive count negative. -/
theorem sentiment_bounds_counterexample :
    (finalize (runOf 10 [⟨"x"⟩] orcC9)).overall_sentiment.positive = -5 ∧
    ¬ (0 ≤ (finalize (runOf 10 [⟨"x"⟩] orcC9)).overall_sentiment.positive) :=
  ⟨by decide, by decide⟩

/-- A chunk result whose sentiment section is within the documented ranges:
counts nonnegative, average score in [-1, 1]. -/
def WellFormedSentiment (r : ChunkResult) : Prop :=
  0 ≤ r.overall_sentiment.positive.getD 0 ∧
  0 ≤ r.overall_sentiment.neutral.getD 0 ∧
  0 ≤ r.overall_sentiment.negative.getD 0 ∧
  -1 ≤ r.overall_sentiment.average_score.getD 0 ∧
  r.overall_sentiment.average_score.getD 0 ≤ 1

/-- Loop invariant: counts stay nonnegative and the score sum is bounded by
the processed-comment count in absolute value. -/
def BoundsInv (st : RunState) : Prop :=
  0 ≤ st.agg.overall_sentiment.positive ∧
  0 ≤ st.agg.overall_sentiment.neutral ∧
  0 ≤ st.agg.overall_sentiment.negative ∧
  st.scoreSum ≤ (st.processed : ℚ) ∧
  -(st.processed : ℚ) ≤ st.scoreSum ∧
  st.agg.overall_sentiment.average_score = 0

lemma boundsInv_step (oracle : Nat → Except String ChunkResult)
    (hwf : ∀ k r, oracle k = Except.ok r → WellFormedSentiment r)
    (st : RunState) (chunk : List Comment) (h : BoundsInv st) :
    BoundsInv (processChunk oracle st chunk) := by
  obtain ⟨h1, h2, h3, h4, h5, h6⟩ := h
  have hn : (0 : ℚ) ≤ ((chunkTexts chunk).length : ℚ) := Nat.cast_nonneg _
  rw [processChunk]
  split
  · exact ⟨h1, h2, h3, h4, h5, h6⟩
  · cases heq : oracle st.calls with
    | error e =>
      simp only [attemptChunk]
      refine ⟨h1, h2, h3, ?_, ?_, h6⟩
      · dsimp only
        push_cast
        linarith
      · dsimp only
        push_cast
        linarith
    | ok r =>
      obtain ⟨w1, w2, w3, w4, w5⟩ := hwf _ r heq
      have hup : r.overall_sentiment.average_score.getD 0 * ((chunkTexts chunk).length : ℚ) ≤
          ((chunkTexts chunk).length : ℚ) := mul_le_of_le_one_left hn w5
      have hlo : -(((chunkTexts chunk).length : ℚ)) ≤
          r.overall_sentiment.average_score.getD 0 * ((chunkTexts chunk).length : ℚ) := by
        have := mul_le_mul_of_nonneg_right w4 hn
        rwa [neg_one_mul] at this
      simp only [attemptChunk]
      by_cases htm : (mergeThemes st.agg.key_themes r.key_themes).2
      · rw [if_pos htm]
        refine ⟨?_, ?_, ?_, ?_, ?_, ?_⟩
        · dsimp only [addSentiment]; exact add_nonneg h1 w1
        · dsimp only [addSentiment]; exact add_nonneg h2 w2
        · dsimp only [addSentiment]; exact add_nonneg h3 w3
        · dsimp only; push_cast; linarith
        · dsimp only; push_cast; linarith
        · dsimp only [addSentiment]; exact h6
      · rw [if_neg htm]
        refine ⟨?_, ?_, ?_, ?_, ?_, ?_⟩
        · dsimp only [addSentiment]; exact add_nonneg h1 w1
        · dsimp only [addSentiment]; exact add_nonneg h2 w2
        · dsimp only [addSentiment]; exact add_nonneg h3 w3
        · dsimp only; push_cast; linarith
        · dsimp only; push_cast; linarith
        · dsimp only [addSentiment]; exact h6

/-- Claim C9 (corrected): for every non-empty comment list and every oracle
whose successful chunk results are well-formed (nonnegative counts, average
score in [-1, 1]), the finalized sentiment counts are nonnegative and the
final average score lies in [-1, 1] — whether or not any chunk succeeded.
(As literally stated, over arbitrary provider results, the claim is false:
see the counterexample.) -/
theorem sentiment_bounds_of_wellformed (chunkSize : Nat) (comments : List Comment)
    (oracle : Nat → Except String ChunkResult)
    (hne : comments ≠ [])
    (hwf : ∀ k r, oracle k = Except.ok r → WellFormedSentiment r) :
    0 ≤ (finalize (runOf chunkSize comments oracle)).overall_sentiment.positive ∧
    0 ≤ (finalize (runOf chunkSize comments oracle)).overall_sentiment.neutral ∧
    0 ≤ (finalize (runOf chunkSize comments oracle)).overall_sentiment.negative ∧
    -1 ≤ (finalize (runOf chunkSize comments oracle)).overall_sentiment.average_score ∧
    (finalize (runOf chunkSize comments oracle)).overall_sentiment.average_score ≤ 1 := by
  have hInv : BoundsInv (runOf chunkSize comments oracle) :=
    foldl_processChunk_inv oracle BoundsInv
      (fun st chunk h => boundsInv_step oracle hwf st chunk h)
      (chunksOf chunkSize comments) {}
      ⟨le_refl 0, le_refl 0, le_refl 0, by norm_num, by norm_num, rfl⟩
  obtain ⟨h1, h2, h3, h4, h5, h6⟩ := hInv
  refine ⟨h1, h2, h3, ?_, ?_⟩
  · rw [finalize]
    dsimp only
    split
    · rename_i hp
      have hp' : (0 : ℚ) < ((runOf chunkSize comments oracle).processed : ℚ) := by
        exact_mod_cast hp
      rw [le_div_iff hp']
      linarith
    · rw [h6]
      norm_num
  · rw [finalize]
    dsimp only
    split
    · rename_i hp
      have hp' : (0 : ℚ) < ((runOf chunkSize comments oracle).processed : ℚ) := by
        exact_mod_cast hp
      rw [div_le_one hp']
      exact h4
    · rw [h6]
      norm_num

/-- A provider delivering a well-formed sentiment section. -/
def orcC9w : Nat → Except String ChunkResult := fun _ =>
  .ok { overall_sentiment := { positive := some 2, average_score := some 1 } }

/-- Witness for the amended C9 at a concrete run. -/
theorem sentiment_bounds_of_wellformed_witness :
    0 ≤ (finalize (runOf 10 [(⟨"x"⟩ : Comment)] orcC9w)).overall_sentiment.positive ∧
    -1 ≤ (finalize (runOf 10 [(⟨"x"⟩ : Comment)] orcC9w)).overall_sentiment.average_score ∧
    (finalize (runOf 10 [(⟨"x"⟩ : Comment)] orcC9w)).overall_sentiment.average_score ≤ 1 := by
  have h := sentiment_bounds_of_wellformed 10 [⟨"x"⟩] orcC9w (by decide)
    (fun k r hr => by
      injection hr with hr
      subst hr
      exact ⟨by decide, by decide, by decide, by decide, by decide⟩)
  exact ⟨h.1, h.2.2.2.1, h.2.2.2.2⟩

/-! Claim C3: the 429 mapping. Both the quota branch and the generic branch
of `_make_api_request` raise Python `ValueError` (analyzer.py lines 65 and
76): the two are not distinct exception kinds, only their messages differ. -/

/-- Counterexample for C3 as stated: the error raised for HTTP 429 has the
same Python exception class as the one raised for HTTP 500. -/
theorem quota_error_same_class_counterexample :
    (handleHTTPError 429 "boom" none).pyClass =
      (handleHTTPError 500 "boom" none).pyClass ∧
    (handleHTTPError 429 "boom" none).pyClass = "ValueError" :=
  ⟨rfl, rfl⟩

/-- The fixed quota message differs from every prefixed transport message
within the first 11 characters ("Gemini free" vs "Gemini API "). -/
lemma quotaMessage_ne_prefixed (s : String) :
    quotaMessage ≠ "Gemini API request failed: " ++ s := by
  intro h
  have hd : quotaMessage.data = ("Gemini API request failed: ").data ++ s.data := by
    rw [h, String.data_append]
  have h11 : quotaMessage.data.take 11 =
      (("Gemini API request failed: ").data ++ s.data).take 11 := by
    rw [hd]
  rw [List.take_append_of_le_length (by decide)] at h11
  exact absurd h11 (by decide)

/-- Claim C3 (corrected): a 429 response raises the fixed quota-exceeded
error and any other non-2xx status raises the generic transport error; both
are the same Python exception class (`ValueError`), so they are not distinct
error kinds, but they are always distinguishable by message: the 429 message
is the fixed quota text, which no other status can produce. -/
theorem quota_error_distinguished_by_message (status : Nat)
    (body body' : String) (env env' : Option String) (h : status ≠ 429) :
    (handleHTTPError 429 body env).pyClass = "ValueError" ∧
    (handleHTTPError status body' env').pyClass = "ValueError" ∧
    (handleHTTPError 429 body env).message = quotaMessage ∧
    (handleHTTPError 429 body env).message ≠
      (handleHTTPError status body' env').message := by
  rw [handleHTTPError, handleHTTPError, if_pos rfl, if_neg h]
  exact ⟨rfl, rfl, rfl, quotaMessage_ne_prefixed _⟩

/-- Witness for C3's corrected statement at statuses 429 and 500. -/
theorem quota_error_distinguished_by_message_witness :
    (handleHTTPError 429 "body" none).pyClass = "ValueError" ∧
    (handleHTTPError 500 "body" (some "Internal error")).pyClass = "ValueError" ∧
    (handleHTTPError 429 "body" none).message = quotaMessage ∧
    (handleHTTPError 429 "body" none).message ≠
      (handleHTTPError 500 "body" (some "Internal error")).message :=
  quota_error_distinguished_by_message 500 "body" "body" none
    (some "Internal error") (by decide)
